import Mathlib

/-!
Shallow embedding of the token-matching engine of the `language-tokenizer`
crate (`src/lib.rs`): the data model (`Token`, `MatchMode`, `MatchResult`),
the single-window matchers `find_exact_match` and `find_fuzzy_match`, the
dispatcher `find_match`, and the multi-match loop `find_all_matches`.

Modelling conventions:
* Rust `usize` is modelled by `Nat` (no overflow is reachable: all values are
  bounded by list lengths and token offsets).
* Rust `f64` scores are modelled by `ℚ`; the external similarity scorer
  `strsim::normalized_levenshtein` (a collaborator outside this crate) is
  modelled as an explicit parameter `sim : String → String → ℚ`; the spec's
  contract (values in `[0,1]`) is taken as a hypothesis where a claim needs it.
* Rust `str::to_lowercase` / `char::is_uppercase` are modelled by Lean's
  `String.toLower` / `Char.isUpper`; all concrete inputs used below are ASCII,
  where the two agree.
* `slice::windows(n)` is modelled by `windows` below.  Rust panics for
  `n = 0`; both public entry points guard `needle.len() == 0` before any
  matcher runs, so the `n = 0` case is unreachable from the public API, and
  theorems about the raw matchers carry a `needle ≠ []` hypothesis.
-/

/-- `Token` from `src/lib.rs`: normalized text plus the character offset and
character length of the original span. -/
structure Token where
  text : String
  start : Nat
  len : Nat
deriving DecidableEq, Repr

instance : Inhabited Token := ⟨⟨"", 0, 0⟩⟩

/-- `MatchMode` from `src/lib.rs`; thresholds (`f64` in the source) are `ℚ`. -/
inductive MatchMode where
  | Exact : MatchMode
  | Fuzzy : ℚ → MatchMode
  | Both : ℚ → MatchMode
deriving DecidableEq, Repr

/-- `MatchResult` from `src/lib.rs`: `Exact((offset, length))` or
`Fuzzy((offset, length), score)`. -/
inductive MatchResult where
  | Exact : Nat × Nat → MatchResult
  | Fuzzy : Nat × Nat → ℚ → MatchResult
deriving DecidableEq, Repr

/-- Rust `slice::windows(k)`: all contiguous sub-slices of length `k`, left to
right.  (For `k = 0` Rust panics; callers guard that case, see module note.) -/
def windows (k : Nat) (l : List α) : List (List α) :=
  (List.range (l.length + 1 - k)).map fun i => (l.drop i).take k

/-- `a.text.chars().filter(|c| c.is_uppercase()).count()` from the permissive
branches of both matchers. -/
def upper_count (s : String) : Nat :=
  (s.data.filter fun c => c.isUpper).length

/-- `iter().fold(0, |mut acc, a| { acc += a.len; acc })`: the sum of the `len`
fields of a token sequence, as folded in both matchers. -/
def token_len_sum (l : List Token) : Nat :=
  l.foldl (fun acc a => acc + a.len) 0

/-- The per-pair predicate of the permissive branch of `find_exact_match`:
lowercased texts equal, and the haystack token has at least as many uppercase
characters as the needle token. -/
def permissive_pair (a b : Token) : Bool :=
  let a_lower := a.text.toLower
  let b_lower := b.text.toLower
  if a_lower == b_lower then
    decide (upper_count b.text ≤ upper_count a.text)
  else
    false

/-- The window predicate of `find_exact_match`: `window == needle` (slice
equality on `Token`, whose `PartialEq` compares `text` only) when not
permissive, else the per-pair permissive check over `window.iter().zip(needle)`. -/
def exact_window_matches (permissive : Bool) (window needle : List Token) : Bool :=
  if permissive then
    (window.zip needle).all fun ab => permissive_pair ab.1 ab.2
  else
    decide (window.map Token.text = needle.map Token.text)

/-- `find_exact_match` from `src/lib.rs`: first window (via `find_map`)
passing the predicate; on success reports `window[0].start` and the fold of
the NEEDLE tokens' `len` fields. -/
def find_exact_match (haystack needle : List Token) (permissive : Bool) :
    Option MatchResult :=
  (windows needle.length haystack).findSome? fun window =>
    if exact_window_matches permissive window needle then
      some (MatchResult.Exact (window.headI.start, token_len_sum needle))
    else
      none

/-- Per-pair similarity inside `find_fuzzy_match`: lowercase both texts first
when permissive. -/
def pair_score (sim : String → String → ℚ) (permissive : Bool) (a b : Token) : ℚ :=
  if permissive then
    sim a.text.toLower b.text.toLower
  else
    sim a.text b.text

/-- The window score of `find_fuzzy_match`:
`window.iter().zip(needle).map(score).sum::<f64>() / needle.len() as f64`. -/
def window_score (sim : String → String → ℚ) (permissive : Bool)
    (window needle : List Token) : ℚ :=
  ((window.zip needle).map fun ab => pair_score sim permissive ab.1 ab.2).sum /
    (needle.length : ℚ)

/-- The extra permissive gate of `find_fuzzy_match`: every aligned pair has
haystack uppercase count ≥ needle uppercase count. -/
def fuzzy_upper_ok (window needle : List Token) : Bool :=
  (window.zip needle).all fun ab =>
    decide (upper_count ab.2.text ≤ upper_count ab.1.text)

/-- The acceptance test of `find_fuzzy_match`:
`if score >= threshold && permissive { upper check } else { score >= threshold }`. -/
def fuzzy_passes (sim : String → String → ℚ) (threshold : ℚ) (permissive : Bool)
    (window needle : List Token) : Bool :=
  let score := window_score sim permissive window needle
  if decide (threshold ≤ score) && permissive then
    fuzzy_upper_ok window needle
  else
    decide (threshold ≤ score)

/-- `find_fuzzy_match` from `src/lib.rs`: first window passing the threshold
test; on success reports `window[0].start`, the fold of the WINDOW tokens'
`len` fields, and the score.  The unused `_collapse` parameter is kept. -/
def find_fuzzy_match (sim : String → String → ℚ) (haystack needle : List Token)
    (threshold : ℚ) (permissive : Bool) (_collapse : Bool) : Option MatchResult :=
  (windows needle.length haystack).findSome? fun window =>
    if fuzzy_passes sim threshold permissive window needle then
      some (MatchResult.Fuzzy (window.headI.start, token_len_sum window)
        (window_score sim permissive window needle))
    else
      none

/-- `find_match` from `src/lib.rs`: the guard
`needle.len() == 0 || needle.len() > haystack.len()` then mode dispatch;
`Both` tries exact first and falls back to fuzzy via `or_else`. -/
def find_match (sim : String → String → ℚ) (haystack needle : List Token)
    (mode : MatchMode) (permissive : Bool) : Option MatchResult :=
  if needle.length = 0 ∨ needle.length > haystack.length then
    none
  else
    match mode with
    | MatchMode.Exact => find_exact_match haystack needle permissive
    | MatchMode.Fuzzy threshold =>
        find_fuzzy_match sim haystack needle threshold permissive false
    | MatchMode.Both threshold =>
        (find_exact_match haystack needle permissive).orElse fun _ =>
          find_fuzzy_match sim haystack needle threshold permissive false

/-- The `start` component extracted from either variant, as the per-variant
`match` in the loop body of `find_all_matches` does. -/
def result_start : MatchResult → Nat
  | MatchResult.Exact (s, _) => s
  | MatchResult.Fuzzy (s, _) _ => s

/-- The `while offset < haystack.len()` loop of `find_all_matches`: run the
dispatcher on `haystack[offset..]`; on a hit push the result UNCHANGED and set
`offset = (offset + start) + 1`; on a miss stop. -/
def find_all_matches_go (sim : String → String → ℚ) (haystack needle : List Token)
    (mode : MatchMode) (permissive : Bool) (offset : Nat) : List MatchResult :=
  if h : offset < haystack.length then
    match find_match sim (haystack.drop offset) needle mode permissive with
    | some t =>
        t :: find_all_matches_go sim haystack needle mode permissive
          (offset + result_start t + 1)
    | none => []
  else
    []
termination_by haystack.length - offset
decreasing_by simp_wf; omega

/-- `find_all_matches` from `src/lib.rs`: the same guard as `find_match`,
then the loop starting at offset `0`. -/
def find_all_matches (sim : String → String → ℚ) (haystack needle : List Token)
    (mode : MatchMode) (permissive : Bool) : List MatchResult :=
  if needle.length = 0 ∨ needle.length > haystack.length then
    []
  else
    find_all_matches_go sim haystack needle mode permissive 0

/-- A constant scorer used to instantiate the `sim` parameter on claims whose
mode never invokes the scorer. -/
def sim_zero : String → String → ℚ := fun _ _ => 0

/-- The identity-test scorer: `1` on equal strings, `0` otherwise.  It
satisfies the spec's scorer contract and agrees with
`strsim::normalized_levenshtein` on equal strings. -/
def sim_eq : String → String → ℚ := fun a b => if a = b then 1 else 0

/-- The constant-`1` scorer, in `[0,1]`; it agrees with
`strsim::normalized_levenshtein` whenever the two scored strings are equal. -/
def sim_one : String → String → ℚ := fun _ _ => 1

/-! ### Generic lemmas about `findSome?` and `windows` -/

theorem findSome?_eq_some_iff_first {α β : Type _} (l : List α) (f : α → Option β) (b : β) :
    l.findSome? f = some b ↔
      ∃ i, ∃ hi : i < l.length, f l[i] = some b ∧
        ∀ j, ∀ hj : j < l.length, j < i → f l[j] = none := by
  induction l with
  | nil => simp
  | cons a l ih =>
    rw [List.findSome?_cons]
    cases hfa : f a with
    | some c =>
      simp only []
      constructor
      · intro hb
        exact ⟨0, Nat.succ_pos _, by simpa [hfa] using hb, fun j hj hj0 => absurd hj0 (Nat.not_lt_zero j)⟩
      · rintro ⟨i, hi, hsome, hmin⟩
        cases i with
        | zero => simpa [hfa] using hsome
        | succ i' =>
          have := hmin 0 (Nat.succ_pos _) (Nat.succ_pos _)
          simp [hfa] at this
    | none =>
      simp only []
      rw [ih]
      constructor
      · rintro ⟨i, hi, hsome, hmin⟩
        refine ⟨i + 1, Nat.succ_lt_succ hi, by simpa using hsome, ?_⟩
        intro j hj hji
        cases j with
        | zero => simpa using hfa
        | succ j' =>
          have := hmin j' (Nat.lt_of_succ_lt_succ hj) (Nat.lt_of_succ_lt_succ hji)
          simpa using this
      · rintro ⟨i, hi, hsome, hmin⟩
        cases i with
        | zero => simp [hfa] at hsome
        | succ i' =>
          refine ⟨i', Nat.lt_of_succ_lt_succ hi, by simpa using hsome, ?_⟩
          intro j hj hji
          have := hmin (j + 1) (Nat.succ_lt_succ hj) (Nat.succ_lt_succ hji)
          simpa using this

theorem windows_findSome?_eq_some_iff {α β : Type _} (f : List α → Option β) (k : Nat)
    (l : List α) (b : β) :
    (windows k l).findSome? f = some b ↔
      ∃ i, i < l.length + 1 - k ∧ f ((l.drop i).take k) = some b ∧
        ∀ j, j < i → f ((l.drop j).take k) = none := by
  rw [windows, List.findSome?_map, findSome?_eq_some_iff_first]
  constructor
  · rintro ⟨i, hi, hsome, hmin⟩
    rw [List.length_range] at hi
    refine ⟨i, hi, by simpa using hsome, ?_⟩
    intro j hji
    have hj : j < (List.range (l.length + 1 - k)).length := by
      rw [List.length_range]; omega
    have := hmin j hj hji
    simpa using this
  · rintro ⟨i, hi, hsome, hmin⟩
    refine ⟨i, by rw [List.length_range]; exact hi, by simpa using hsome, ?_⟩
    intro j hj hji
    simpa using hmin j hji

theorem windows_findSome?_eq_none_iff {α β : Type _} (f : List α → Option β) (k : Nat)
    (l : List α) :
    (windows k l).findSome? f = none ↔
      ∀ i, i < l.length + 1 - k → f ((l.drop i).take k) = none := by
  rw [windows, List.findSome?_map, List.findSome?_eq_none_iff]
  constructor
  · intro hall i hi
    exact hall i (by simpa using hi)
  · intro hall x hx
    rw [List.mem_range] at hx
    exact hall x hx

theorem window_length {α : Type _} {i k : Nat} {l : List α} (h : i + k ≤ l.length) :
    ((l.drop i).take k).length = k := by
  simp only [List.length_take, List.length_drop]
  omega

theorem window_headI {α : Type _} [Inhabited α] {i k : Nat} {l : List α}
    (hi : i < l.length) (hk : 0 < k) :
    ((l.drop i).take k).headI = l[i] := by
  rw [List.drop_eq_getElem_cons hi]
  cases k with
  | zero => omega
  | succ k' => rw [List.take_succ_cons, List.headI_cons]

/-! ### Extraction lemmas: where a returned match's offset comes from -/

theorem find_exact_match_start {haystack needle : List Token} {permissive : Bool}
    {r : MatchResult} (hn : needle ≠ [])
    (hr : find_exact_match haystack needle permissive = some r) :
    ∃ i, ∃ hi : i < haystack.length, result_start r = haystack[i].start := by
  rw [find_exact_match, windows_findSome?_eq_some_iff] at hr
  obtain ⟨i, hi, hsome, -⟩ := hr
  have hk : 0 < needle.length := List.length_pos.mpr hn
  have hil : i < haystack.length := by omega
  refine ⟨i, hil, ?_⟩
  by_cases hm : exact_window_matches permissive ((haystack.drop i).take needle.length) needle = true
  · rw [if_pos hm] at hsome
    cases hsome
    rw [result_start, window_headI hil hk]
  · rw [if_neg hm] at hsome
    cases hsome

theorem find_fuzzy_match_start {sim : String → String → ℚ} {haystack needle : List Token}
    {threshold : ℚ} {permissive collapse : Bool} {r : MatchResult} (hn : needle ≠ [])
    (hr : find_fuzzy_match sim haystack needle threshold permissive collapse = some r) :
    ∃ i, ∃ hi : i < haystack.length, result_start r = haystack[i].start := by
  rw [find_fuzzy_match, windows_findSome?_eq_some_iff] at hr
  obtain ⟨i, hi, hsome, -⟩ := hr
  have hk : 0 < needle.length := List.length_pos.mpr hn
  have hil : i < haystack.length := by omega
  refine ⟨i, hil, ?_⟩
  by_cases hm : fuzzy_passes sim threshold permissive ((haystack.drop i).take needle.length) needle = true
  · rw [if_pos hm] at hsome
    cases hsome
    rw [result_start, window_headI hil hk]
  · rw [if_neg hm] at hsome
    cases hsome

theorem find_match_start {sim : String → String → ℚ} {haystack needle : List Token}
    {mode : MatchMode} {permissive : Bool} {r : MatchResult}
    (hr : find_match sim haystack needle mode permissive = some r) :
    ∃ i, ∃ hi : i < haystack.length, result_start r = haystack[i].start := by
  rw [find_match.eq_def] at hr
  split at hr
  · cases hr
  · rename_i hguard
    have hn : needle ≠ [] := by
      intro hnil
      exact hguard (Or.inl (by simp [hnil]))
    cases mode with
    | Exact => exact find_exact_match_start hn hr
    | Fuzzy threshold => exact find_fuzzy_match_start hn hr
    | Both threshold =>
      have hr' : (find_exact_match haystack needle permissive).orElse
          (fun _ => find_fuzzy_match sim haystack needle threshold permissive false) = some r := hr
      cases he : find_exact_match haystack needle permissive with
      | some e =>
        rw [he] at hr'
        have hre : e = r := Option.some.inj hr'
        subst hre
        exact find_exact_match_start hn he
      | none =>
        rw [he] at hr'
        have hr'' : find_fuzzy_match sim haystack needle threshold permissive false = some r := hr'
        exact find_fuzzy_match_start hn hr''

/-- Under the data-model invariant (strictly increasing `start` fields along
the haystack), every token's `start` is at least its index. -/
theorem start_ge_index {haystack : List Token}
    (hmono : List.Pairwise (fun a b => a.start < b.start) haystack) :
    ∀ i, ∀ hi : i < haystack.length, i ≤ haystack[i].start := by
  have hp := List.pairwise_iff_getElem.mp hmono
  intro i
  induction i with
  | zero => intro hi; exact Nat.zero_le _
  | succ n ihn =>
    intro hi
    have hn : n < haystack.length := by omega
    have hlt : haystack[n].start < haystack[n + 1].start :=
      hp n (n + 1) hn hi (Nat.lt_succ_self n)
    have := ihn hn
    omega

/-! ### Lemmas about the `find_all_matches` loop -/

theorem find_all_matches_go_hit {sim : String → String → ℚ} {haystack needle : List Token}
    {mode : MatchMode} {permissive : Bool} {c : Nat} {t : MatchResult}
    (hc : c < haystack.length)
    (hf : find_match sim (haystack.drop c) needle mode permissive = some t) :
    find_all_matches_go sim haystack needle mode permissive c =
      t :: find_all_matches_go sim haystack needle mode permissive (c + result_start t + 1) := by
  rw [find_all_matches_go]
  rw [dif_pos hc, hf]

theorem find_all_matches_go_length (sim : String → String → ℚ)
    (haystack needle : List Token) (mode : MatchMode) (permissive : Bool) (c : Nat) :
    (find_all_matches_go sim haystack needle mode permissive c).length ≤
      haystack.length - c := by
  rw [find_all_matches_go]
  split
  · rename_i hc
    cases hf : find_match sim (haystack.drop c) needle mode permissive with
    | some t =>
      simp only [List.length_cons]
      have hrec := find_all_matches_go_length sim haystack needle mode permissive
        (c + result_start t + 1)
      omega
    | none => simp
  · simp
termination_by haystack.length - c
decreasing_by simp_wf; omega

theorem find_all_matches_go_chain (sim : String → String → ℚ)
    (haystack needle : List Token) (mode : MatchMode) (permissive : Bool)
    (hkey : ∀ i, ∀ hi : i < haystack.length, i ≤ haystack[i].start) (c : Nat) :
    (∀ r ∈ find_all_matches_go sim haystack needle mode permissive c, c ≤ result_start r) ∧
    List.Chain' (· < ·)
      ((find_all_matches_go sim haystack needle mode permissive c).map result_start) := by
  rw [find_all_matches_go]
  split
  · rename_i hc
    cases hf : find_match sim (haystack.drop c) needle mode permissive with
    | some t =>
      obtain ⟨i, hi, hstart⟩ := find_match_start hf
      have hidx : c + i < haystack.length := by
        have := hi
        rw [List.length_drop] at this
        omega
      have hget : (haystack.drop c)[i] = haystack[c + i] := List.getElem_drop haystack
      have hstart_ge : c ≤ result_start t := by
        rw [hstart, hget]
        have := hkey (c + i) hidx
        omega
      obtain ⟨hlb, hch⟩ := find_all_matches_go_chain sim haystack needle mode permissive hkey
        (c + result_start t + 1)
      refine ⟨?_, ?_⟩
      · intro r hr
        rcases List.mem_cons.mp hr with hrt | hr'
        · subst hrt; exact hstart_ge
        · have := hlb r hr'
          omega
      · rw [List.map_cons]
        rw [List.chain'_cons']
        refine ⟨?_, hch⟩
        intro y hy
        rcases hm : (find_all_matches_go sim haystack needle mode permissive
            (c + result_start t + 1)).map result_start with _ | ⟨z, zs⟩
        · rw [hm] at hy
          simp at hy
        · rw [hm] at hy
          simp only [List.head?_cons, Option.mem_def, Option.some.injEq] at hy
          subst hy
          have hz : z ∈ (find_all_matches_go sim haystack needle mode permissive
              (c + result_start t + 1)).map result_start := by
            rw [hm]; exact List.mem_cons_self _ _
          obtain ⟨r', hr', hrz⟩ := List.mem_map.mp hz
          have := hlb r' hr'
          omega
    | none => simp
  · simp
termination_by haystack.length - c
decreasing_by simp_wf; omega

theorem find_all_matches_go_stop {sim : String → String → ℚ} {haystack needle : List Token}
    {mode : MatchMode} {permissive : Bool} {c : Nat} (hc : ¬ c < haystack.length) :
    find_all_matches_go sim haystack needle mode permissive c = [] := by
  rw [find_all_matches_go, dif_neg hc]

/-! ### Claims -/

/-- Claim C8: with an empty needle, or a needle longer than the haystack,
`find_match` returns `none` and `find_all_matches` returns the empty list;
both guard before any matcher runs, no error is raised. -/
theorem C8_guards (sim : String → String → ℚ) (haystack needle : List Token)
    (mode : MatchMode) (permissive : Bool)
    (hguard : needle = [] ∨ haystack.length < needle.length) :
    find_match sim haystack needle mode permissive = none ∧
    find_all_matches sim haystack needle mode permissive = [] := by
  have hg : needle.length = 0 ∨ needle.length > haystack.length := by
    rcases hguard with hg | hg
    · left; simp [hg]
    · right; omega
  constructor
  · rw [find_match.eq_def, if_pos hg]
  · rw [find_all_matches, if_pos hg]

/-- Witness for C8 at an empty needle and a one-token haystack. -/
theorem C8_guards_witness :
    (([] : List Token) = [] ∨ [Token.mk "a" 0 1].length < ([] : List Token).length) ∧
    find_match sim_zero [Token.mk "a" 0 1] [] MatchMode.Exact false = none ∧
    find_all_matches sim_zero [Token.mk "a" 0 1] [] MatchMode.Exact false = [] := by
  refine ⟨Or.inl rfl, ?_⟩
  exact C8_guards sim_zero [Token.mk "a" 0 1] [] MatchMode.Exact false (Or.inl rfl)

/-- Claim C10: the extraction loop terminates (the definition below is by
well-founded recursion on `haystack.length - offset`, mirroring the strictly
increasing cursor), and the result list never holds more matches than the
haystack has tokens. -/
theorem C10_result_count_le (sim : String → String → ℚ) (haystack needle : List Token)
    (mode : MatchMode) (permissive : Bool) :
    (find_all_matches sim haystack needle mode permissive).length ≤ haystack.length := by
  rw [find_all_matches]
  split
  · simp
  · have := find_all_matches_go_length sim haystack needle mode permissive 0
    omega

/-- Claim C2, evaluation at the failing input: the window token spans 7
characters of the original input, the needle token only 3, the texts agree, and
`find_exact_match` reports length 3 (the needle tokens' `len` fold), not the
accepted window's 7. -/
theorem C2_exact_length_eval :
    find_exact_match [Token.mk "a" 0 7] [Token.mk "a" 9 3] false =
      some (MatchResult.Exact (0, 3)) ∧
    token_len_sum [Token.mk "a" 0 7] = 7 ∧
    token_len_sum [Token.mk "a" 9 3] = 3 := by
  refine ⟨?_, rfl, rfl⟩
  decide

/-- Claim C7: in `Both` mode, whenever `find_exact_match` succeeds,
`find_match` returns exactly that result, never a fuzzy one. -/
theorem C7_both_prefers_exact (sim : String → String → ℚ)
    (haystack needle : List Token) (threshold : ℚ) (permissive : Bool) (r : MatchResult)
    (hn : needle ≠ []) (hlen : needle.length ≤ haystack.length)
    (he : find_exact_match haystack needle permissive = some r) :
    find_match sim haystack needle (MatchMode.Both threshold) permissive = some r := by
  have hg : ¬ (needle.length = 0 ∨ needle.length > haystack.length) := by
    have := List.length_pos.mpr hn
    omega
  rw [find_match.eq_def, if_neg hg]
  show (find_exact_match haystack needle permissive).orElse _ = some r
  rw [he]
  rfl

/-- Witness for C7 at a one-token haystack equal to the needle. -/
theorem C7_both_prefers_exact_witness :
    ([Token.mk "a" 0 1] : List Token) ≠ [] ∧
    find_exact_match [Token.mk "a" 0 1] [Token.mk "a" 0 1] false =
      some (MatchResult.Exact (0, 1)) ∧
    find_match sim_zero [Token.mk "a" 0 1] [Token.mk "a" 0 1] (MatchMode.Both 0) false =
      some (MatchResult.Exact (0, 1)) := by
  refine ⟨by decide, by decide, ?_⟩
  exact C7_both_prefers_exact sim_zero [Token.mk "a" 0 1] [Token.mk "a" 0 1] 0 false
    (MatchResult.Exact (0, 1)) (by decide) (by decide) (by decide)

/-- Claim C1, counterexample: at the second iteration the cursor is `1` and
`find_match` on the suffix returns relative result `Exact (5, 1)`; the loop
appends it with offset field `5`, not cursor + relative start `1 + 5 = 6`. -/
theorem C1_counterexample :
    find_all_matches sim_zero [Token.mk "a" 0 1, Token.mk "a" 5 1] [Token.mk "a" 0 1]
      MatchMode.Exact false =
      [MatchResult.Exact (0, 1), MatchResult.Exact (5, 1)] ∧
    find_match sim_zero ([Token.mk "a" 0 1, Token.mk "a" 5 1].drop 1) [Token.mk "a" 0 1]
      MatchMode.Exact false = some (MatchResult.Exact (5, 1)) ∧
    result_start (MatchResult.Exact (5, 1)) ≠ 1 + 5 := by
  refine ⟨?_, by decide, by decide⟩
  rw [find_all_matches, if_neg (by decide)]
  rw [find_all_matches_go_hit (by decide) (show find_match sim_zero
    ([Token.mk "a" 0 1, Token.mk "a" 5 1].drop 0) [Token.mk "a" 0 1] MatchMode.Exact false =
      some (MatchResult.Exact (0, 1)) by decide)]
  rw [find_all_matches_go_hit (by decide) (show find_match sim_zero
    ([Token.mk "a" 0 1, Token.mk "a" 5 1].drop (0 + result_start (MatchResult.Exact (0, 1)) + 1))
      [Token.mk "a" 0 1] MatchMode.Exact false = some (MatchResult.Exact (5, 1)) by decide)]
  rw [find_all_matches_go_stop (by decide)]

/-- Claim C1 as amended: on a hit at cursor `c` the loop appends the
`find_match` result UNCHANGED (its offset field is the matched window's first
token's `start`, already an absolute character offset of the original input),
and the cursor advances to `c + offset_field + 1`. -/
theorem C1_append_unchanged (sim : String → String → ℚ) (haystack needle : List Token)
    (mode : MatchMode) (permissive : Bool) (c : Nat) (t : MatchResult)
    (hc : c < haystack.length)
    (hf : find_match sim (haystack.drop c) needle mode permissive = some t) :
    find_all_matches_go sim haystack needle mode permissive c =
      t :: find_all_matches_go sim haystack needle mode permissive (c + result_start t + 1) ∧
    ∃ i, ∃ hi : c + i < haystack.length, result_start t = haystack[c + i].start := by
  refine ⟨find_all_matches_go_hit hc hf, ?_⟩
  obtain ⟨i, hi, hstart⟩ := find_match_start hf
  have hidx : c + i < haystack.length := by
    rw [List.length_drop] at hi
    omega
  refine ⟨i, hidx, ?_⟩
  rw [hstart]
  exact congrArg Token.start (List.getElem_drop haystack)

/-- Witness for C1 as amended, at the second iteration of the counterexample
input (cursor 1, hit `Exact (5, 1)`). -/
theorem C1_append_unchanged_witness :
    1 < [Token.mk "a" 0 1, Token.mk "a" 5 1].length ∧
    find_match sim_zero ([Token.mk "a" 0 1, Token.mk "a" 5 1].drop 1) [Token.mk "a" 0 1]
      MatchMode.Exact false = some (MatchResult.Exact (5, 1)) ∧
    (find_all_matches_go sim_zero [Token.mk "a" 0 1, Token.mk "a" 5 1] [Token.mk "a" 0 1]
        MatchMode.Exact false 1 =
      MatchResult.Exact (5, 1) :: find_all_matches_go sim_zero
        [Token.mk "a" 0 1, Token.mk "a" 5 1] [Token.mk "a" 0 1] MatchMode.Exact false
        (1 + result_start (MatchResult.Exact (5, 1)) + 1) ∧
    ∃ i, ∃ hi : 1 + i < [Token.mk "a" 0 1, Token.mk "a" 5 1].length,
      result_start (MatchResult.Exact (5, 1)) =
        [Token.mk "a" 0 1, Token.mk "a" 5 1][1 + i].start) := by
  refine ⟨by decide, by decide, ?_⟩
  exact C1_append_unchanged sim_zero [Token.mk "a" 0 1, Token.mk "a" 5 1] [Token.mk "a" 0 1]
    MatchMode.Exact false 1 (MatchResult.Exact (5, 1)) (by decide) (by decide)

/-- Claim C3, counterexample: two tokens that both carry `start = 0` (violating
no data-model precondition stated in the claim, which quantifies over every
haystack) produce two matches with equal offsets `[0, 0]`, not strictly
increasing. -/
theorem C3_counterexample :
    (find_all_matches sim_zero [Token.mk "a" 0 1, Token.mk "a" 0 1] [Token.mk "a" 0 1]
        MatchMode.Exact false).map result_start = [0, 0] ∧
    ¬ List.Chain' (· < ·)
      ((find_all_matches sim_zero [Token.mk "a" 0 1, Token.mk "a" 0 1] [Token.mk "a" 0 1]
        MatchMode.Exact false).map result_start) := by
  have heval : find_all_matches sim_zero [Token.mk "a" 0 1, Token.mk "a" 0 1]
      [Token.mk "a" 0 1] MatchMode.Exact false =
      [MatchResult.Exact (0, 1), MatchResult.Exact (0, 1)] := by
    rw [find_all_matches, if_neg (by decide)]
    rw [find_all_matches_go_hit (by decide) (show find_match sim_zero
      ([Token.mk "a" 0 1, Token.mk "a" 0 1].drop 0) [Token.mk "a" 0 1] MatchMode.Exact false =
        some (MatchResult.Exact (0, 1)) by decide)]
    rw [find_all_matches_go_hit (by decide) (show find_match sim_zero
      ([Token.mk "a" 0 1, Token.mk "a" 0 1].drop
          (0 + result_start (MatchResult.Exact (0, 1)) + 1))
        [Token.mk "a" 0 1] MatchMode.Exact false = some (MatchResult.Exact (0, 1)) by decide)]
    rw [find_all_matches_go_stop (by decide)]
  rw [heval]
  exact ⟨rfl, by simp [List.chain'_cons]⟩

/-- Claim C3 as amended: under the data-model invariant (token `start` fields
strictly increasing along the haystack), `find_all_matches` yields matches
whose offset fields are strictly increasing. -/
theorem C3_offsets_increasing (sim : String → String → ℚ) (haystack needle : List Token)
    (mode : MatchMode) (permissive : Bool)
    (hmono : List.Pairwise (fun a b => a.start < b.start) haystack) :
    List.Chain' (· < ·)
      ((find_all_matches sim haystack needle mode permissive).map result_start) := by
  rw [find_all_matches]
  split
  · simp
  · exact (find_all_matches_go_chain sim haystack needle mode permissive
      (start_ge_index hmono) 0).2

/-- Witness for C3 as amended: a haystack with strictly increasing starts and
two hits. -/
theorem C3_offsets_increasing_witness :
    List.Pairwise (fun a b => a.start < b.start)
      [Token.mk "a" 0 1, Token.mk "a" 2 1] ∧
    List.Chain' (· < ·)
      ((find_all_matches sim_zero [Token.mk "a" 0 1, Token.mk "a" 2 1] [Token.mk "a" 0 1]
        MatchMode.Exact false).map result_start) := by
  refine ⟨by decide, ?_⟩
  exact C3_offsets_increasing sim_zero [Token.mk "a" 0 1, Token.mk "a" 2 1] [Token.mk "a" 0 1]
    MatchMode.Exact false (by decide)

theorem exact_window_matches_false_iff (window needle : List Token) :
    exact_window_matches false window needle = true ↔
      window.map Token.text = needle.map Token.text := by
  simp [exact_window_matches]

/-- Claim C4: in `Exact` mode with `permissive = false`, a match is returned
iff some length-`needle.length` window of the haystack has the same token
texts position by position; the returned match is built from the leftmost such
window (first token's `start` as offset, needle `len` fold as length). -/
theorem C4_exact_iff_leftmost (sim : String → String → ℚ) (haystack needle : List Token)
    (hn : needle ≠ []) (hlen : needle.length ≤ haystack.length) :
    ((find_match sim haystack needle MatchMode.Exact false).isSome ↔
      ∃ i, i + needle.length ≤ haystack.length ∧
        ((haystack.drop i).take needle.length).map Token.text = needle.map Token.text) ∧
    (∀ r, find_match sim haystack needle MatchMode.Exact false = some r →
      ∃ i, i + needle.length ≤ haystack.length ∧
        ((haystack.drop i).take needle.length).map Token.text = needle.map Token.text ∧
        (∀ j, j < i →
          ¬ ((haystack.drop j).take needle.length).map Token.text = needle.map Token.text) ∧
        r = MatchResult.Exact (((haystack.drop i).take needle.length).headI.start,
          token_len_sum needle)) := by
  have hg : ¬ (needle.length = 0 ∨ needle.length > haystack.length) := by
    have := List.length_pos.mpr hn
    omega
  have hfm : find_match sim haystack needle MatchMode.Exact false =
      find_exact_match haystack needle false := by
    rw [find_match.eq_def, if_neg hg]
  constructor
  · rw [hfm]
    cases hfe : find_exact_match haystack needle false with
    | some r =>
      simp only [Option.isSome_some, true_iff]
      rw [find_exact_match, windows_findSome?_eq_some_iff] at hfe
      obtain ⟨i, hib, hsome, -⟩ := hfe
      by_cases hm : exact_window_matches false ((haystack.drop i).take needle.length)
          needle = true
      · exact ⟨i, by omega, (exact_window_matches_false_iff _ _).mp hm⟩
      · rw [if_neg hm] at hsome
        cases hsome
    | none =>
      simp only [Option.isSome_none, Bool.false_eq_true, false_iff]
      rintro ⟨i, hib, hw⟩
      rw [find_exact_match, windows_findSome?_eq_none_iff] at hfe
      have := hfe i (by omega)
      rw [if_pos ((exact_window_matches_false_iff _ _).mpr hw)] at this
      cases this
  · intro r hr
    rw [hfm, find_exact_match, windows_findSome?_eq_some_iff] at hr
    obtain ⟨i, hib, hsome, hmin⟩ := hr
    by_cases hm : exact_window_matches false ((haystack.drop i).take needle.length)
        needle = true
    · rw [if_pos hm] at hsome
      refine ⟨i, by omega, (exact_window_matches_false_iff _ _).mp hm, ?_, ?_⟩
      · intro j hji hw
        have := hmin j hji
        rw [if_pos ((exact_window_matches_false_iff _ _).mpr hw)] at this
        cases this
      · exact (Option.some.inj hsome).symm
    · rw [if_neg hm] at hsome
      cases hsome

/-- Witness for C4 at a two-token haystack whose second window matches. -/
theorem C4_exact_iff_leftmost_witness :
    ([Token.mk "b" 2 1] : List Token) ≠ [] ∧
    ([Token.mk "b" 2 1] : List Token).length ≤
      ([Token.mk "a" 0 1, Token.mk "b" 2 1] : List Token).length ∧
    ((find_match sim_zero [Token.mk "a" 0 1, Token.mk "b" 2 1] [Token.mk "b" 2 1]
        MatchMode.Exact false).isSome ↔
      ∃ i, i + 1 ≤ 2 ∧
        (([Token.mk "a" 0 1, Token.mk "b" 2 1].drop i).take 1).map Token.text =
          [Token.mk "b" 2 1].map Token.text) := by
  refine ⟨by decide, by decide, ?_⟩
  exact (C4_exact_iff_leftmost sim_zero [Token.mk "a" 0 1, Token.mk "b" 2 1]
    [Token.mk "b" 2 1] (by decide) (by decide)).1

/-- Claim C6: in permissive exact matching, an aligned pair whose haystack
token has strictly fewer uppercase characters than the needle token never
matches (even with equal lowercase forms), a window containing such a pair
fails the window predicate, and if every window contains such a pair
`find_exact_match` with `permissive = true` finds nothing. -/
theorem C6_permissive_asymmetry :
    (∀ a b : Token, upper_count a.text < upper_count b.text →
      permissive_pair a b = false) ∧
    (∀ window needle : List Token,
      (∃ ab ∈ window.zip needle, upper_count ab.1.text < upper_count ab.2.text) →
      exact_window_matches true window needle = false) ∧
    (∀ haystack needle : List Token,
      (∀ i, i + needle.length ≤ haystack.length →
        ∃ ab ∈ ((haystack.drop i).take needle.length).zip needle,
          upper_count ab.1.text < upper_count ab.2.text) →
      find_exact_match haystack needle true = none) := by
  have hpair : ∀ a b : Token, upper_count a.text < upper_count b.text →
      permissive_pair a b = false := by
    intro a b hub
    rw [permissive_pair]
    split
    · simp only [decide_eq_false_iff_not]
      omega
    · rfl
  have hwin : ∀ window needle : List Token,
      (∃ ab ∈ window.zip needle, upper_count ab.1.text < upper_count ab.2.text) →
      exact_window_matches true window needle = false := by
    rintro window needle ⟨ab, hmem, hub⟩
    rw [exact_window_matches, if_pos rfl]
    rw [List.all_eq_false]
    exact ⟨ab, hmem, by rw [hpair ab.1 ab.2 hub]; simp⟩
  refine ⟨hpair, hwin, ?_⟩
  intro haystack needle hall
  rw [find_exact_match, windows_findSome?_eq_none_iff]
  intro i hib
  rw [if_neg ?_]
  rw [hwin _ _ (hall i (by omega))]
  simp

/-- Witness for C6 at the pair `"a"` (haystack) vs `"A"` (needle): equal
lowercase forms, fewer uppercase characters on the haystack side. -/
theorem C6_permissive_asymmetry_witness :
    upper_count "a" < upper_count "A" ∧
    permissive_pair (Token.mk "a" 0 1) (Token.mk "A" 0 1) = false ∧
    exact_window_matches true [Token.mk "a" 0 1] [Token.mk "A" 0 1] = false ∧
    find_exact_match [Token.mk "a" 0 1] [Token.mk "A" 0 1] true = none := by
  refine ⟨by decide, ?_, ?_, ?_⟩
  · exact C6_permissive_asymmetry.1 (Token.mk "a" 0 1) (Token.mk "A" 0 1) (by decide)
  · exact C6_permissive_asymmetry.2.1 [Token.mk "a" 0 1] [Token.mk "A" 0 1]
      ⟨(Token.mk "a" 0 1, Token.mk "A" 0 1), by decide, by decide⟩
  · exact C6_permissive_asymmetry.2.2 [Token.mk "a" 0 1] [Token.mk "A" 0 1]
      (fun i hi => by
        have hi0 : i = 0 := by simpa using hi
        subst hi0
        exact ⟨(Token.mk "a" 0 1, Token.mk "A" 0 1), by decide, by decide⟩)

/-! ### Score bounds for the fuzzy matcher -/

theorem window_score_nonneg (sim : String → String → ℚ)
    (hsim : ∀ a b : String, 0 ≤ sim a b ∧ sim a b ≤ 1)
    (permissive : Bool) (window needle : List Token) :
    0 ≤ window_score sim permissive window needle := by
  rw [window_score]
  apply div_nonneg
  · apply List.sum_nonneg
    intro x hx
    obtain ⟨ab, -, hab⟩ := List.mem_map.mp hx
    rw [← hab, pair_score]
    split
    · exact (hsim _ _).1
    · exact (hsim _ _).1
  · exact_mod_cast Nat.zero_le _

theorem window_score_le_one (sim : String → String → ℚ)
    (hsim : ∀ a b : String, 0 ≤ sim a b ∧ sim a b ≤ 1)
    (permissive : Bool) (window needle : List Token)
    (hn : needle ≠ []) (hw : needle.length ≤ window.length) :
    window_score sim permissive window needle ≤ 1 := by
  have hpos : (0 : ℚ) < (needle.length : ℚ) := by
    exact_mod_cast List.length_pos.mpr hn
  rw [window_score, div_le_one hpos]
  have hlen : ((window.zip needle).map
      fun ab => pair_score sim permissive ab.1 ab.2).length = needle.length := by
    rw [List.length_map, List.length_zip]
    omega
  calc ((window.zip needle).map fun ab => pair_score sim permissive ab.1 ab.2).sum
      ≤ ((window.zip needle).map
          fun ab => pair_score sim permissive ab.1 ab.2).length • (1 : ℚ) := by
        apply List.sum_le_card_nsmul
        intro x hx
        obtain ⟨ab, -, hab⟩ := List.mem_map.mp hx
        rw [← hab, pair_score]
        split
        · exact (hsim _ _).2
        · exact (hsim _ _).2
    _ = (needle.length : ℚ) := by
        rw [hlen]
        simp

theorem sim_eq_same (s : String) : sim_eq s s = 1 := by
  simp [sim_eq]

theorem window_score_single (sim : String → String → ℚ) (p : Bool) (a b : Token) :
    window_score sim p [a] [b] = pair_score sim p a b := by
  simp [window_score]

/-- Claim C5, counterexample: with `permissive = true`, threshold `1`, haystack
token `"a"` and needle token `"A"`, the only window's score is exactly the
threshold (the scorer returns `1` on the lowercased texts, both `"a"`, exactly
as `normalized_levenshtein` does on equal strings), yet the window is rejected:
the permissive uppercase-count gate fails, so a window with score equal to the
threshold is NOT always accepted. -/
theorem C5_counterexample :
    windows 1 [Token.mk "a" 0 1] = [[Token.mk "a" 0 1]] ∧
    window_score sim_one true [Token.mk "a" 0 1] [Token.mk "A" 0 1] = 1 ∧
    find_fuzzy_match sim_one [Token.mk "a" 0 1] [Token.mk "A" 0 1] 1 true false = none := by
  have hscore : window_score sim_one true [Token.mk "a" 0 1] [Token.mk "A" 0 1] = 1 := by
    rw [window_score_single]
    simp [pair_score, sim_one]
  refine ⟨by decide, hscore, ?_⟩
  have hup : fuzzy_upper_ok [Token.mk "a" 0 1] [Token.mk "A" 0 1] = false := by decide
  have hfp : fuzzy_passes sim_one 1 true [Token.mk "a" 0 1] [Token.mk "A" 0 1] = false := by
    simp only [fuzzy_passes, hscore, hup]
    norm_num
  rw [find_fuzzy_match, windows_findSome?_eq_none_iff]
  intro i hib
  have hi0 : i = 0 := by simpa using hib
  subst hi0
  show (if fuzzy_passes sim_one 1 true [Token.mk "a" 0 1] [Token.mk "A" 0 1] = true then
      some (MatchResult.Fuzzy (([Token.mk "a" 0 1]).headI.start,
        token_len_sum [Token.mk "a" 0 1])
        (window_score sim_one true [Token.mk "a" 0 1] [Token.mk "A" 0 1]))
    else none) = none
  rw [hfp]
  simp

/-- Claim C5 as amended: the score of a window is the computed arithmetic mean
`window_score` (sum of aligned pair similarities, lowercased when permissive,
divided by the needle length), and the threshold comparison is closed:
acceptance is exactly score ≥ threshold, plus (only when permissive) the
per-pair uppercase-count gate; with `permissive = false` a window whose score
equals the threshold is accepted.  Every returned result carries its window's
`window_score`. -/
theorem C5_closed_threshold (sim : String → String → ℚ) (threshold : ℚ)
    (permissive : Bool) (needle : List Token) :
    (∀ window : List Token,
      fuzzy_passes sim threshold permissive window needle =
        (decide (threshold ≤ window_score sim permissive window needle) &&
          (!permissive || fuzzy_upper_ok window needle))) ∧
    (∀ window : List Token,
      window_score sim permissive window needle = threshold → permissive = false →
      fuzzy_passes sim threshold permissive window needle = true) ∧
    (∀ haystack : List Token, ∀ r : MatchResult,
      find_fuzzy_match sim haystack needle threshold permissive false = some r →
      ∃ i, i + needle.length ≤ haystack.length ∧
        fuzzy_passes sim threshold permissive ((haystack.drop i).take needle.length)
          needle = true ∧
        r = MatchResult.Fuzzy
          (((haystack.drop i).take needle.length).headI.start,
            token_len_sum ((haystack.drop i).take needle.length))
          (window_score sim permissive ((haystack.drop i).take needle.length) needle)) := by
  have hpass : ∀ window : List Token,
      fuzzy_passes sim threshold permissive window needle =
        (decide (threshold ≤ window_score sim permissive window needle) &&
          (!permissive || fuzzy_upper_ok window needle)) := by
    intro window
    rw [fuzzy_passes]
    by_cases hsc : threshold ≤ window_score sim permissive window needle
    · cases permissive <;> simp [hsc]
    · cases permissive <;> simp [hsc]
  refine ⟨hpass, ?_, ?_⟩
  · intro window hsc hperm
    subst hperm
    rw [hpass window, hsc]
    simp
  · intro haystack r hr
    rw [find_fuzzy_match, windows_findSome?_eq_some_iff] at hr
    obtain ⟨i, hib, hsome, -⟩ := hr
    by_cases hm : fuzzy_passes sim threshold permissive
        ((haystack.drop i).take needle.length) needle = true
    · rw [if_pos hm] at hsome
      exact ⟨i, by omega, hm, (Option.some.inj hsome).symm⟩
    · rw [if_neg hm] at hsome
      cases hsome

/-- Witness for C5 as amended: non-permissive, score exactly at the threshold,
accepted; and a returned fuzzy result carrying its window's score. -/
theorem C5_closed_threshold_witness :
    window_score sim_eq false [Token.mk "a" 0 1] [Token.mk "a" 0 1] = 1 ∧
    fuzzy_passes sim_eq 1 false [Token.mk "a" 0 1] [Token.mk "a" 0 1] = true ∧
    find_fuzzy_match sim_eq [Token.mk "a" 0 1] [Token.mk "a" 0 1] 1 false false =
      some (MatchResult.Fuzzy (0, 1) 1) ∧
    (∃ i, i + 1 ≤ 1 ∧
      fuzzy_passes sim_eq 1 false (([Token.mk "a" 0 1].drop i).take 1) [Token.mk "a" 0 1] = true ∧
      MatchResult.Fuzzy (0, 1) 1 = MatchResult.Fuzzy
        ((([Token.mk "a" 0 1].drop i).take 1).headI.start,
          token_len_sum (([Token.mk "a" 0 1].drop i).take 1))
        (window_score sim_eq false (([Token.mk "a" 0 1].drop i).take 1) [Token.mk "a" 0 1])) := by
  have hscore : window_score sim_eq false [Token.mk "a" 0 1] [Token.mk "a" 0 1] = 1 := by
    rw [window_score_single]
    simp [pair_score, sim_eq]
  have hfp : fuzzy_passes sim_eq 1 false [Token.mk "a" 0 1] [Token.mk "a" 0 1] = true := by
    simp only [fuzzy_passes, hscore]
    norm_num
  have hsome : find_fuzzy_match sim_eq [Token.mk "a" 0 1] [Token.mk "a" 0 1] 1 false false =
      some (MatchResult.Fuzzy (0, 1) 1) := by
    rw [find_fuzzy_match, windows_findSome?_eq_some_iff]
    refine ⟨0, by decide, ?_, fun j hj => absurd hj (Nat.not_lt_zero j)⟩
    show (if fuzzy_passes sim_eq 1 false [Token.mk "a" 0 1] [Token.mk "a" 0 1] = true then
        some (MatchResult.Fuzzy (([Token.mk "a" 0 1]).headI.start,
          token_len_sum [Token.mk "a" 0 1])
          (window_score sim_eq false [Token.mk "a" 0 1] [Token.mk "a" 0 1]))
      else none) = some (MatchResult.Fuzzy (0, 1) 1)
    rw [if_pos hfp, hscore]
    rfl
  refine ⟨hscore, ?_, hsome, ?_⟩
  · exact (C5_closed_threshold sim_eq 1 false [Token.mk "a" 0 1]).2.1
      [Token.mk "a" 0 1] hscore rfl
  · exact (C5_closed_threshold sim_eq 1 false [Token.mk "a" 0 1]).2.2
      [Token.mk "a" 0 1] (MatchResult.Fuzzy (0, 1) 1) hsome

/-- Claim C9: if the scorer is bounded in `[0,1]`, then with a threshold
strictly above `1` the fuzzy matcher never matches, and with a threshold at or
below `0` every window's score passes the threshold comparison. -/
theorem C9_threshold_extremes (sim : String → String → ℚ)
    (hsim : ∀ a b : String, 0 ≤ sim a b ∧ sim a b ≤ 1)
    (haystack needle : List Token) (permissive collapse : Bool)
    (hn : needle ≠ []) (hlen : needle.length ≤ haystack.length) :
    (∀ threshold : ℚ, 1 < threshold →
      find_fuzzy_match sim haystack needle threshold permissive collapse = none) ∧
    (∀ threshold : ℚ, threshold ≤ 0 → ∀ i, i + needle.length ≤ haystack.length →
      threshold ≤ window_score sim permissive ((haystack.drop i).take needle.length)
        needle) := by
  constructor
  · intro threshold ht
    rw [find_fuzzy_match, windows_findSome?_eq_none_iff]
    intro i hib
    have hwlen : needle.length ≤ ((haystack.drop i).take needle.length).length := by
      rw [window_length (by omega : i + needle.length ≤ haystack.length)]
    have hsc : ¬ threshold ≤ window_score sim permissive
        ((haystack.drop i).take needle.length) needle := by
      have := window_score_le_one sim hsim permissive
        ((haystack.drop i).take needle.length) needle hn hwlen
      intro hcontra
      linarith
    have hfp : fuzzy_passes sim threshold permissive
        ((haystack.drop i).take needle.length) needle = false := by
      simp [fuzzy_passes, hsc]
    rw [hfp]
    simp
  · intro threshold ht i hi
    have := window_score_nonneg sim hsim permissive
      ((haystack.drop i).take needle.length) needle
    linarith

/-- Witness for C9 with the identity-test scorer, a one-token haystack and
needle, threshold `2` (never matches) and threshold `0` (score passes). -/
theorem C9_threshold_extremes_witness :
    (∀ a b : String, 0 ≤ sim_eq a b ∧ sim_eq a b ≤ 1) ∧
    find_fuzzy_match sim_eq [Token.mk "a" 0 1] [Token.mk "a" 0 1] 2 false false = none ∧
    (0 : ℚ) ≤ window_score sim_eq false (([Token.mk "a" 0 1].drop 0).take 1)
      [Token.mk "a" 0 1] := by
  have hs : ∀ a b : String, 0 ≤ sim_eq a b ∧ sim_eq a b ≤ 1 := by
    intro a b
    rw [sim_eq]
    split
    · exact ⟨by norm_num, by norm_num⟩
    · exact ⟨by norm_num, by norm_num⟩
  refine ⟨hs, ?_, ?_⟩
  · exact (C9_threshold_extremes sim_eq hs [Token.mk "a" 0 1] [Token.mk "a" 0 1]
      false false (by decide) (by decide)).1 2 (by norm_num)
  · exact (C9_threshold_extremes sim_eq hs [Token.mk "a" 0 1] [Token.mk "a" 0 1]
      false false (by decide) (by decide)).2 0 le_rfl 0 (by decide)
